import Mathlib

/-!
Verification of the persistent iteration store of `westpa_colmena/io.py`
(class `WestpaH5File`), the component that appends weighted-ensemble
iteration data to an HDF5 file.

Modelling conventions of this shallow embedding:
* float64 weights and progress coordinates are modelled as exact rationals;
* byte strings (binning-scheme hashes, pickled blobs) are lists of naturals;
* an HDF5 object reference is `Option Nat`, `some k` meaning a reference to
  the subgroup whose name is the decimal string of `k`, `none` the null
  reference;
* the HDF5 file is an explicit record of its attributes, datasets and
  groups; a group that the code creates lazily (`require_group` followed by
  dataset creation in the same call) is `Option`-valued, `none` standing
  for "group and its datasets not created yet";
* `h5py` raising `ValueError` (explicit raise, or `min`/`max` on an empty
  sequence) is modelled as `H5Error.emptyIteration`; an out-of-range
  dataset index as `H5Error.indexError`.
-/

namespace WestpaH5

/-- Fields of the `SimMetadata` records (from `westpa_colmena.ensemble`)
that `io.py` reads: `iteration_id`, `simulation_id`, `weight`,
`binner_hash`, `binner_pickle`, `auxref`, `parent_pcoord`. -/
structure SimMetadata where
  iteration_id : Nat
  simulation_id : Nat
  weight : Rat
  binner_hash : List Nat
  binner_pickle : List Nat
  auxref : String
  parent_pcoord : List Rat
deriving DecidableEq, Repr

/-- Fields of `TargetState` that `io.py` reads: `label` and `pcoord`. -/
structure TargetState where
  label : String
  pcoord : List Rat
deriving DecidableEq, Repr

/-- Configuration record `DDWEMetadata` of `io.py`. -/
structure DDWEMetadata where
  west_current_iteration : Int
  west_file_format_version : Nat := 9
  west_iter_prec : Nat := 8
  west_version : String
deriving DecidableEq, Repr

/-- One row of the `/summary` table (`summary_table_dtype`). -/
structure SummaryRow where
  n_particles : Nat
  norm : Rat
  min_bin_prob : Rat
  max_bin_prob : Rat
  min_seg_prob : Rat
  max_seg_prob : Rat
  cputime : Rat
  walltime : Rat
  binhash : List Nat
deriving DecidableEq, Repr

/-- Zero fill value of a freshly allocated summary row (`np.zeros`, with
the `S64` hash field null-filled). -/
def defaultSummaryRow : SummaryRow :=
  { n_particles := 0, norm := 0, min_bin_prob := 0, max_bin_prob := 0
    min_seg_prob := 0, max_seg_prob := 0, cputime := 0, walltime := 0
    binhash := List.replicate 64 0 }

/-- One row of `/ibstates/index` (`ibstate_index_dtype`). -/
structure IBIndexRow where
  iter_valid : Nat
  n_bstates : Nat
  group_ref : Option Nat
deriving DecidableEq, Repr

/-- One row of a `bstate_index` detail table (`bstate_dtype`). -/
structure BStateRow where
  label : String
  probability : Rat
  auxref : String
deriving DecidableEq, Repr

/-- Contents of one `/ibstates/{k}` subgroup: the two detail datasets,
each `none` until assigned (they are only assigned when the basis-state
list is non-empty). -/
structure IBSubgroup where
  bstate_index : Option (List BStateRow)
  bstate_pcoord : Option (List (List Rat))
deriving DecidableEq, Repr

/-- The `/ibstates` group: the growable index dataset plus the subgroups
created so far, keyed by their numeric name. -/
structure IBGroup where
  index : List IBIndexRow
  subgroups : List (Nat × IBSubgroup)
deriving DecidableEq, Repr

/-- One row of `/tstates/index` (`tstate_index_dtype`). -/
structure TStateIndexRow where
  iter_valid : Nat
  n_states : Nat
  group_ref : Option Nat
deriving DecidableEq, Repr

/-- Contents of one `/tstates/{k}` subgroup: the label table
(`tstate_dtype` has only the `label` field) and the pcoord matrix. -/
structure TSubgroup where
  index : List String
  pcoord : List (List Rat)
deriving DecidableEq, Repr

/-- The `/tstates` group: growable index dataset plus subgroups keyed by
their numeric name (a subgroup exists only for non-empty epochs). -/
structure TSGroup where
  index : List TStateIndexRow
  subgroups : List (Nat × TSubgroup)
deriving DecidableEq, Repr

/-- One row of `/bin_topologies/index` (`binning_index_dtype`). -/
structure BinIndexRow where
  hash : List Nat
  pickle_len : Nat
deriving DecidableEq, Repr

/-- The `/bin_topologies` group: index dataset plus the `pickles` byte
matrix, whose column width can itself grow; every row is kept padded with
zero bytes to the current `width`. -/
structure BinTopGroup where
  index : List BinIndexRow
  width : Nat
  rows : List (List Nat)
deriving DecidableEq, Repr

/-- The whole HDF5 file written by `WestpaH5File`. -/
structure WestFile where
  west_file_format_version : Nat
  west_iter_prec : Nat
  west_version : String
  summary : List SummaryRow
  iterations : List (String × Nat)
  ibstates : Option IBGroup
  tstates : Option TSGroup
  bin_topologies : Option BinTopGroup
deriving DecidableEq, Repr

/-- Errors surfaced by the store (Python `ValueError` variants). -/
inductive H5Error where
  | emptyIteration
  | indexError
deriving DecidableEq, Repr

/-- The logical writes performed inside one `append` call, in program
order. -/
inductive WriteEvent where
  | summaryWrite
  | ibstatesWrite
  | tstatesWrite
  | binMapperWrite
  | iterGroupCreate
deriving DecidableEq, Repr

/-- Result of one `append` call: the surfaced error if any, the on-disk
file state when the call returns or raises, and the ordered trace of the
writes that were performed. -/
structure AppendResult where
  err : Option H5Error
  file : WestFile
  trace : List WriteEvent
deriving DecidableEq, Repr

/-- The weight sequence `(x.weight for x in sims)`. -/
def weights (sims : List SimMetadata) : List Rat :=
  sims.map fun s => s.weight

/-- The per-bin summed weights `(sum(x.weight for x in sims) for sims in
binned_sims)`. -/
def binSums (binned_sims : List (List SimMetadata)) : List Rat :=
  binned_sims.map fun sims => (weights sims).sum

/-- Python `min` over a sequence: `none` on an empty sequence (where
Python raises `ValueError`). -/
def pyMin : List Rat → Option Rat
  | [] => none
  | x :: xs => some (xs.foldl min x)

/-- Python `max` over a sequence: `none` on an empty sequence. -/
def pyMax : List Rat → Option Rat
  | [] => none
  | x :: xs => some (xs.foldl max x)

/-- The summary-table part of `append_summary`: resize the table to
`n_iter + 1` rows when it is shorter than `n_iter` (new rows zero-filled),
then assign row `n_iter - 1` with Python index semantics (a negative index
counts from the end; an out-of-range index raises). -/
def summaryTableWrite (f : WestFile) (n_iter : Nat) (row : SummaryRow) :
    Except H5Error WestFile :=
  let tbl := f.summary
  let tbl2 :=
    if tbl.length < n_iter then
      tbl ++ List.replicate (n_iter + 1 - tbl.length) defaultSummaryRow
    else tbl
  let j : Int := (n_iter : Int) - 1
  let j2 : Int := if j < 0 then j + tbl2.length else j
  if 0 ≤ j2 ∧ j2 < (tbl2.length : Int) then
    Except.ok { f with summary := tbl2.set j2.toNat row }
  else
    Except.error H5Error.indexError

/-- `WestpaH5File.append_summary`: build the aggregate row (particle
count, weight norm, per-segment and per-bin extremes, zero cpu/wall time,
the first record's binning hash) and write it at row `n_iter - 1`.  The
`min`/`max` calls raise on an empty replica list or empty bin partition,
before the table is touched. -/
def append_summary (f : WestFile) (n_iter : Nat)
    (next_iteration : List SimMetadata)
    (binned_sims : List (List SimMetadata)) : Except H5Error WestFile :=
  match next_iteration, pyMin (weights next_iteration),
      pyMax (weights next_iteration), pyMin (binSums binned_sims),
      pyMax (binSums binned_sims) with
  | sim0 :: _, some minSeg, some maxSeg, some minBin, some maxBin =>
      summaryTableWrite f n_iter
        { n_particles := next_iteration.length
          norm := (weights next_iteration).sum
          min_bin_prob := minBin
          max_bin_prob := maxBin
          min_seg_prob := minSeg
          max_seg_prob := maxSeg
          cputime := 0
          walltime := 0
          binhash := sim0.binner_hash }
  | _, _, _, _, _ => Except.error H5Error.emptyIteration

/-- `WestpaH5File.append_ibstates`: grow (or create with one row) the
`/ibstates/index` dataset, fill the new row, create the subgroup named
`str(set_id)` and point the row's `group_ref` at it unconditionally, and
populate the subgroup's detail datasets only when `basis_states` is
non-empty. -/
def append_ibstates (f : WestFile) (n_iter : Nat)
    (basis_states : List SimMetadata) : WestFile :=
  let g : IBGroup :=
    match f.ibstates with
    | some g => { g with index := g.index ++ [⟨0, 0, none⟩] }
    | none => { index := [⟨0, 0, none⟩], subgroups := [] }
  let set_id := g.index.length - 1
  let row : IBIndexRow :=
    { iter_valid := n_iter
      n_bstates := basis_states.length
      group_ref := some set_id }
  let sub : IBSubgroup :=
    match basis_states with
    | [] => { bstate_index := none, bstate_pcoord := none }
    | _ =>
      { bstate_index := some (basis_states.map fun s =>
          { label := toString s.simulation_id
            probability := s.weight
            auxref := s.auxref })
        bstate_pcoord := some (basis_states.map fun s => s.parent_pcoord) }
  { f with ibstates := some (
      { index := g.index.set set_id row
        subgroups := g.subgroups ++ [(set_id, sub)] } : IBGroup) }

/-- `WestpaH5File.append_tstates`: grow (or create with one row) the
`/tstates/index` dataset and fill the new row; only when `target_states`
is non-empty is a subgroup created and referenced, otherwise `group_ref`
is the null reference and no subgroup appears. -/
def append_tstates (f : WestFile) (n_iter : Nat)
    (target_states : List TargetState) : WestFile :=
  let g : TSGroup :=
    match f.tstates with
    | some g => { g with index := g.index ++ [⟨0, 0, none⟩] }
    | none => { index := [⟨0, 0, none⟩], subgroups := [] }
  let set_id := g.index.length - 1
  match target_states with
  | [] =>
      let row : TStateIndexRow :=
        { iter_valid := n_iter, n_states := 0, group_ref := none }
      { f with tstates := some (
          { index := g.index.set set_id row
            subgroups := g.subgroups } : TSGroup) }
  | _ =>
      let row : TStateIndexRow :=
        { iter_valid := n_iter
          n_states := target_states.length
          group_ref := some set_id }
      let sub : TSubgroup :=
        { index := target_states.map fun s => s.label
          pcoord := target_states.map fun s => s.pcoord }
      { f with tstates := some (
          { index := g.index.set set_id row
            subgroups := g.subgroups ++ [(set_id, sub)] } : TSGroup) }

/-- Assignment `pickle_ds[ind, :len(data)] = data`: overwrite the first
`data.length` cells of a payload row, keeping the rest. -/
def writeSlice (row data : List Nat) : List Nat :=
  data ++ row.drop data.length

/-- `WestpaH5File.append_bin_mapper`: create the `/bin_topologies`
datasets (index of shape `(1,)`, byte matrix of shape
`(1, len(pickle_data))`) on first use, otherwise grow the index by one row
and the byte matrix by one row while widening its column count to
`max(current, len(pickle_data))` (new cells zero-filled); then record the
record's hash and pickle length in the new index row and write the raw
bytes into the new payload row. -/
def append_bin_mapper (f : WestFile) (sim : SimMetadata) : WestFile :=
  let pickle_data := sim.binner_pickle
  let hashval := sim.binner_hash
  let g : BinTopGroup :=
    match f.bin_topologies with
    | some g =>
        let new_hsize := max g.width pickle_data.length
        { index := g.index ++ [⟨List.replicate 64 0, 0⟩]
          width := new_hsize
          rows := (g.rows.map fun r =>
              r ++ List.replicate (new_hsize - r.length) 0)
            ++ [List.replicate new_hsize 0] }
    | none =>
        { index := [⟨List.replicate 64 0, 0⟩]
          width := pickle_data.length
          rows := [List.replicate pickle_data.length 0] }
  let ind := g.index.length - 1
  let row : BinIndexRow := { hash := hashval, pickle_len := pickle_data.length }
  { f with bin_topologies := some (
      { index := g.index.set ind row
        width := g.width
        rows := g.rows.set ind (writeSlice (g.rows.getD ind []) pickle_data) }
      : BinTopGroup) }

/-- Zero padding of `'\x7bn:0\x7bprec\x7dd\x7d'.format`. -/
def zeroPad (prec n : Nat) : String :=
  let s := toString n
  String.mk (List.replicate (prec - s.length) '0') ++ s

/-- Name of the per-iteration namespace group. -/
def iterGroupName (prec n : Nat) : String :=
  "iter_" ++ zeroPad prec n

/-- `require_group` on `/iterations` followed by stamping the `n_iter`
attribute: reuse the group when the name exists, create it otherwise. -/
def setIterGroup (its : List (String × Nat)) (name : String) (n : Nat) :
    List (String × Nat) :=
  if its.any fun p => p.1 = name then
    its.map fun p => if p.1 = name then (p.1, n) else p
  else
    its ++ [(name, n)]

/-- Creation of `/iterations/iter_{n:0{prec}d}` with attribute
`n_iter = n`. -/
def createIterGroup (prec : Nat) (f : WestFile) (n_iter : Nat) : WestFile :=
  { f with iterations :=
      setIterGroup f.iterations (iterGroupName prec n_iter) n_iter }

/-- `WestpaH5File.append`: raise on an empty replica list; otherwise take
the iteration number from the first record, write the summary row, then —
each gated on `n_iter` being nonzero — the basis states, target states and
bin mapper, and finally create the iteration namespace group. -/
def append (cfg : DDWEMetadata) (f : WestFile)
    (next_iteration : List SimMetadata)
    (binned_sims : List (List SimMetadata))
    (basis_states : List SimMetadata)
    (target_states : List TargetState) : AppendResult :=
  match next_iteration with
  | [] => { err := some H5Error.emptyIteration, file := f, trace := [] }
  | sim :: _ =>
    let n_iter := sim.iteration_id
    match append_summary f n_iter next_iteration binned_sims with
    | Except.error e => { err := some e, file := f, trace := [] }
    | Except.ok f1 =>
      let r2 : WestFile × List WriteEvent :=
        if n_iter ≠ 0 then
          (append_ibstates f1 n_iter basis_states, [WriteEvent.ibstatesWrite])
        else (f1, [])
      let r3 : WestFile × List WriteEvent :=
        if n_iter ≠ 0 then
          (append_tstates r2.1 n_iter target_states, [WriteEvent.tstatesWrite])
        else (r2.1, [])
      let r4 : WestFile × List WriteEvent :=
        if n_iter ≠ 0 then
          (append_bin_mapper r3.1 sim, [WriteEvent.binMapperWrite])
        else (r3.1, [])
      let f5 := createIterGroup cfg.west_iter_prec r4.1 n_iter
      { err := none
        file := f5
        trace := [WriteEvent.summaryWrite] ++ r2.2 ++ r3.2 ++ r4.2
          ++ [WriteEvent.iterGroupCreate] }

/-- The file produced by `WestpaH5File.__init__`: format attributes, a
summary table with one zero row, an empty `/iterations` group, and none of
the lazily created groups. -/
def freshFile (config : DDWEMetadata) : WestFile :=
  { west_file_format_version := config.west_file_format_version
    west_iter_prec := config.west_iter_prec
    west_version := config.west_version
    summary := [defaultSummaryRow]
    iterations := []
    ibstates := none
    tstates := none
    bin_topologies := none }

/-- `WestpaH5File.__init__` opens the target path with `h5py.File(mode
set to 'w')`, which truncates: whatever file existed at the path
(`existing`) is discarded and a fresh store is written unconditionally. -/
def westpaH5FileInit (existing : Option WestFile) (config : DDWEMetadata) :
    Except H5Error WestFile :=
  Except.ok (freshFile config)

/-- The `/ibstates/index` dataset, empty when the group does not exist. -/
def ibIndex (f : WestFile) : List IBIndexRow :=
  match f.ibstates with
  | none => []
  | some g => g.index

/-- The `/ibstates` subgroups created so far. -/
def ibSubgroups (f : WestFile) : List (Nat × IBSubgroup) :=
  match f.ibstates with
  | none => []
  | some g => g.subgroups

/-- The `/tstates/index` dataset, empty when the group does not exist. -/
def tsIndex (f : WestFile) : List TStateIndexRow :=
  match f.tstates with
  | none => []
  | some g => g.index

/-- The `/tstates` subgroups created so far. -/
def tsSubgroups (f : WestFile) : List (Nat × TSubgroup) :=
  match f.tstates with
  | none => []
  | some g => g.subgroups

/-- The `/bin_topologies/index` dataset, empty when absent. -/
def binIndex (f : WestFile) : List BinIndexRow :=
  match f.bin_topologies with
  | none => []
  | some g => g.index

/-- The rows of the `/bin_topologies/pickles` byte matrix. -/
def binRows (f : WestFile) : List (List Nat) :=
  match f.bin_topologies with
  | none => []
  | some g => g.rows

/-- The column width of the `/bin_topologies/pickles` byte matrix. -/
def binWidth (f : WestFile) : Nat :=
  match f.bin_topologies with
  | none => 0
  | some g => g.width

/-- Well-formedness of the bin-topology store: index and payload datasets
have the same number of rows (they are created together and resized
together). -/
def binWF (f : WestFile) : Prop :=
  (binIndex f).length = (binRows f).length

instance (f : WestFile) : Decidable (binWF f) := by
  unfold binWF; infer_instance

/-- Two replica records that agree on every field except possibly
`iteration_id`. -/
def sameExceptIterId (a b : SimMetadata) : Prop :=
  a.simulation_id = b.simulation_id ∧ a.weight = b.weight ∧
  a.binner_hash = b.binner_hash ∧ a.binner_pickle = b.binner_pickle ∧
  a.auxref = b.auxref ∧ a.parent_pcoord = b.parent_pcoord

/-- Concrete configuration used for the concrete evaluations below. -/
def cfg0 : DDWEMetadata :=
  { west_current_iteration := 1, west_version := "2024.1" }

/-- Concrete replica record of iteration 1 with weight 3/5. -/
def simA : SimMetadata :=
  { iteration_id := 1, simulation_id := 0, weight := 3/5
    binner_hash := [7, 7], binner_pickle := [1, 2, 3]
    auxref := "", parent_pcoord := [0] }

/-- Concrete replica record of iteration 1 with weight 2/5. -/
def simB : SimMetadata :=
  { simA with simulation_id := 1, weight := 2/5 }

/-- The record `simB` with a different `iteration_id` only. -/
def simB2 : SimMetadata :=
  { simB with iteration_id := 42 }

/-- A freshly created store. -/
def file0 : WestFile := freshFile cfg0

/-- A valid store holding one committed iteration: the state of `file0`
after appending iteration 1. -/
def file1 : WestFile :=
  (append cfg0 file0 [simA, simB] [[simA, simB]] [] []).file

/-- The state of `file0` after only the summary write of iteration 1 with
replicas `simA`, `simB` in one bin (the row holds the aggregate
expressions unevaluated, so that the equation with the writer's output is
definitional). -/
def sumFile1 : WestFile :=
  { file0 with summary :=
      [{ n_particles := (simA :: [simB]).length
         norm := (weights (simA :: [simB])).sum
         min_bin_prob := (binSums ([] : List (List SimMetadata))).foldl min
           (weights [simA, simB]).sum
         max_bin_prob := (binSums ([] : List (List SimMetadata))).foldl max
           (weights [simA, simB]).sum
         min_seg_prob := (weights [simB]).foldl min simA.weight
         max_seg_prob := (weights [simB]).foldl max simA.weight
         cputime := 0
         walltime := 0
         binhash := simA.binner_hash }] }

/-! Helper lemmas about folds, list updates, and the individual writers. -/

theorem foldl_min_mem (xs : List Rat) : ∀ a : Rat, xs.foldl min a ∈ a :: xs := by
  induction xs with
  | nil => intro a; simp
  | cons x xs ih =>
    intro a
    have h := ih (min a x)
    rw [List.foldl_cons]
    rcases List.mem_cons.mp h with h2 | h2
    · rcases min_choice a x with h1 | h1
      · rw [h2, h1]; exact List.mem_cons_self _ _
      · rw [h2, h1]; exact List.mem_cons_of_mem _ (List.mem_cons_self _ _)
    · exact List.mem_cons_of_mem _ (List.mem_cons_of_mem _ h2)

theorem foldl_min_le (xs : List Rat) :
    ∀ a w : Rat, w ∈ a :: xs → xs.foldl min a ≤ w := by
  induction xs with
  | nil =>
    intro a w hw
    rw [List.mem_singleton] at hw
    simp [hw]
  | cons x xs ih =>
    intro a w hw
    rw [List.foldl_cons]
    rcases List.mem_cons.mp hw with h2 | h2
    · calc xs.foldl min (min a x) ≤ min a x :=
            ih (min a x) (min a x) (List.mem_cons_self _ _)
        _ ≤ a := min_le_left _ _
        _ = w := h2.symm
    · rcases List.mem_cons.mp h2 with h3 | h3
      · calc xs.foldl min (min a x) ≤ min a x :=
              ih (min a x) (min a x) (List.mem_cons_self _ _)
          _ ≤ x := min_le_right _ _
          _ = w := h3.symm
      · exact ih (min a x) w (List.mem_cons_of_mem _ h3)

theorem foldl_max_mem (xs : List Rat) : ∀ a : Rat, xs.foldl max a ∈ a :: xs := by
  induction xs with
  | nil => intro a; simp
  | cons x xs ih =>
    intro a
    have h := ih (max a x)
    rw [List.foldl_cons]
    rcases List.mem_cons.mp h with h2 | h2
    · rcases max_choice a x with h1 | h1
      · rw [h2, h1]; exact List.mem_cons_self _ _
      · rw [h2, h1]; exact List.mem_cons_of_mem _ (List.mem_cons_self _ _)
    · exact List.mem_cons_of_mem _ (List.mem_cons_of_mem _ h2)

theorem foldl_max_le (xs : List Rat) :
    ∀ a w : Rat, w ∈ a :: xs → w ≤ xs.foldl max a := by
  induction xs with
  | nil =>
    intro a w hw
    rw [List.mem_singleton] at hw
    simp [hw]
  | cons x xs ih =>
    intro a w hw
    rw [List.foldl_cons]
    rcases List.mem_cons.mp hw with h2 | h2
    · calc w = a := h2
        _ ≤ max a x := le_max_left _ _
        _ ≤ xs.foldl max (max a x) :=
            ih (max a x) (max a x) (List.mem_cons_self _ _)
    · rcases List.mem_cons.mp h2 with h3 | h3
      · calc w = x := h3
          _ ≤ max a x := le_max_right _ _
          _ ≤ xs.foldl max (max a x) :=
              ih (max a x) (max a x) (List.mem_cons_self _ _)
      · exact ih (max a x) w (List.mem_cons_of_mem _ h3)

theorem set_append_last {α : Type} (l : List α) (d a : α) :
    (l ++ [d]).set l.length a = l ++ [a] := by
  induction l with
  | nil => rfl
  | cons x xs ih => simp [List.set, ih]

theorem getD_append_self {α : Type} (A : List α) (b d : α) :
    (A ++ [b]).getD A.length d = b := by
  induction A with
  | nil => rfl
  | cons x xs ih => exact ih

theorem getElem?_append_self {α : Type} (A : List α) (b : α) :
    (A ++ [b])[A.length]? = some b := by
  rw [List.getElem?_append_right (le_refl _)]
  simp

theorem summaryTableWrite_ok_pos (f : WestFile) (n : Nat) (row : SummaryRow)
    (hn : 1 ≤ n) :
    ∃ tbl : List SummaryRow,
      summaryTableWrite f n row = Except.ok { f with summary := tbl } ∧
      n ≤ tbl.length ∧ f.summary.length ≤ tbl.length ∧
      tbl[n - 1]? = some row := by
  by_cases hc : f.summary.length < n
  · have hL : (f.summary ++ List.replicate (n + 1 - f.summary.length)
        defaultSummaryRow).length = n + 1 := by
      simp; omega
    refine ⟨(f.summary ++ List.replicate (n + 1 - f.summary.length)
        defaultSummaryRow).set (n - 1) row, ?_, ?_, ?_, ?_⟩
    · simp only [summaryTableWrite]
      rw [if_pos hc, if_neg (by omega : ¬((n : Int) - 1 < 0)),
        if_pos (by rw [hL]; push_cast; omega),
        (by omega : ((n : Int) - 1).toNat = n - 1)]
    · rw [List.length_set, hL]; omega
    · rw [List.length_set, hL]; omega
    · exact List.getElem?_set_self (by rw [hL]; omega)
  · refine ⟨f.summary.set (n - 1) row, ?_, ?_, ?_, ?_⟩
    · simp only [summaryTableWrite]
      rw [if_neg hc, if_neg (by omega : ¬((n : Int) - 1 < 0)),
        if_pos (by constructor <;> omega),
        (by omega : ((n : Int) - 1).toNat = n - 1)]
    · rw [List.length_set]; omega
    · rw [List.length_set]
    · exact List.getElem?_set_self (by omega)

theorem summaryTableWrite_zero (f : WestFile) (row : SummaryRow)
    (h : 1 ≤ f.summary.length) :
    summaryTableWrite f 0 row =
      Except.ok
        { f with summary := (f.summary.set (f.summary.length - 1) row) } := by
  simp only [summaryTableWrite]
  rw [if_neg (by omega : ¬(f.summary.length < 0)),
    if_pos (by omega : ((0 : Nat) : Int) - 1 < 0),
    if_pos (by constructor <;> omega),
    (by omega : (((0 : Nat) : Int) - 1 + (f.summary.length : Int)).toNat
      = f.summary.length - 1)]

theorem append_summary_cons (f : WestFile) (n : Nat) (s0 : SimMetadata)
    (t : List SimMetadata) (c0 : List SimMetadata)
    (d : List (List SimMetadata)) :
    append_summary f n (s0 :: t) (c0 :: d) =
      summaryTableWrite f n
        { n_particles := (s0 :: t).length
          norm := (weights (s0 :: t)).sum
          min_bin_prob := (binSums d).foldl min (weights c0).sum
          max_bin_prob := (binSums d).foldl max (weights c0).sum
          min_seg_prob := (weights t).foldl min s0.weight
          max_seg_prob := (weights t).foldl max s0.weight
          cputime := 0
          walltime := 0
          binhash := s0.binner_hash } := rfl

theorem append_summary_binned_nil (f : WestFile) (n : Nat) (s0 : SimMetadata)
    (t : List SimMetadata) :
    append_summary f n (s0 :: t) [] = Except.error H5Error.emptyIteration := rfl

@[simp] theorem append_ibstates_summary (f : WestFile) (n : Nat)
    (bs : List SimMetadata) :
    (append_ibstates f n bs).summary = f.summary := rfl

@[simp] theorem append_ibstates_tstates (f : WestFile) (n : Nat)
    (bs : List SimMetadata) :
    (append_ibstates f n bs).tstates = f.tstates := rfl

@[simp] theorem append_ibstates_bin_topologies (f : WestFile) (n : Nat)
    (bs : List SimMetadata) :
    (append_ibstates f n bs).bin_topologies = f.bin_topologies := rfl

@[simp] theorem append_ibstates_iterations (f : WestFile) (n : Nat)
    (bs : List SimMetadata) :
    (append_ibstates f n bs).iterations = f.iterations := rfl

@[simp] theorem append_tstates_summary (f : WestFile) (n : Nat)
    (ts : List TargetState) :
    (append_tstates f n ts).summary = f.summary := by cases ts <;> rfl

@[simp] theorem append_tstates_ibstates (f : WestFile) (n : Nat)
    (ts : List TargetState) :
    (append_tstates f n ts).ibstates = f.ibstates := by cases ts <;> rfl

@[simp] theorem append_tstates_bin_topologies (f : WestFile) (n : Nat)
    (ts : List TargetState) :
    (append_tstates f n ts).bin_topologies = f.bin_topologies := by
  cases ts <;> rfl

@[simp] theorem append_tstates_iterations (f : WestFile) (n : Nat)
    (ts : List TargetState) :
    (append_tstates f n ts).iterations = f.iterations := by cases ts <;> rfl

@[simp] theorem append_bin_mapper_summary (f : WestFile) (sim : SimMetadata) :
    (append_bin_mapper f sim).summary = f.summary := rfl

@[simp] theorem append_bin_mapper_ibstates (f : WestFile) (sim : SimMetadata) :
    (append_bin_mapper f sim).ibstates = f.ibstates := rfl

@[simp] theorem append_bin_mapper_tstates (f : WestFile) (sim : SimMetadata) :
    (append_bin_mapper f sim).tstates = f.tstates := rfl

@[simp] theorem append_bin_mapper_iterations (f : WestFile) (sim : SimMetadata) :
    (append_bin_mapper f sim).iterations = f.iterations := rfl

@[simp] theorem createIterGroup_summary (prec : Nat) (f : WestFile) (n : Nat) :
    (createIterGroup prec f n).summary = f.summary := rfl

@[simp] theorem createIterGroup_ibstates (prec : Nat) (f : WestFile) (n : Nat) :
    (createIterGroup prec f n).ibstates = f.ibstates := rfl

@[simp] theorem createIterGroup_tstates (prec : Nat) (f : WestFile) (n : Nat) :
    (createIterGroup prec f n).tstates = f.tstates := rfl

@[simp] theorem createIterGroup_bin_topologies (prec : Nat) (f : WestFile)
    (n : Nat) :
    (createIterGroup prec f n).bin_topologies = f.bin_topologies := rfl

theorem createIterGroup_iterations (prec : Nat) (f : WestFile) (n : Nat) :
    (createIterGroup prec f n).iterations =
      setIterGroup f.iterations (iterGroupName prec n) n := rfl

theorem mem_setIterGroup (its : List (String × Nat)) (name : String)
    (n : Nat) :
    (name, n) ∈ setIterGroup its name n := by
  unfold setIterGroup
  split
  case isTrue hany =>
    rw [List.any_eq_true] at hany
    obtain ⟨p, hp, hpe⟩ := hany
    rw [List.mem_map]
    refine ⟨p, hp, ?_⟩
    have hpn : p.1 = name := by simpa using hpe
    rw [if_pos hpn, hpn]
  case isFalse hany =>
    exact List.mem_append_right _ (by simp)

theorem forall2_weights {l1 l2 : List SimMetadata}
    (h : List.Forall₂ sameExceptIterId l1 l2) : weights l1 = weights l2 := by
  induction h with
  | nil => rfl
  | cons h1 h2 ih =>
    simp only [weights, List.map_cons] at ih ⊢
    rw [h1.2.1, ih]

theorem forall2_binSums {b1 b2 : List (List SimMetadata)}
    (h : List.Forall₂ (List.Forall₂ sameExceptIterId) b1 b2) :
    binSums b1 = binSums b2 := by
  induction h with
  | nil => rfl
  | cons h1 h2 ih =>
    simp only [binSums, List.map_cons] at ih ⊢
    rw [forall2_weights h1, ih]

theorem ibstates_append_empty (f : WestFile) (n : Nat) :
    (append_ibstates f n []).ibstates = some (
      { index := ibIndex f ++ [⟨n, 0, some (ibIndex f).length⟩]
        subgroups := ibSubgroups f
          ++ [((ibIndex f).length, ⟨none, none⟩)] } : IBGroup) := by
  cases hf : f.ibstates with
  | none => simp [append_ibstates, ibIndex, ibSubgroups, hf]
  | some g =>
    simp only [append_ibstates, ibIndex, ibSubgroups, hf]
    have h1 : (g.index ++ [(⟨0, 0, none⟩ : IBIndexRow)]).length - 1
        = g.index.length := by simp
    rw [h1, set_append_last]
    rfl

theorem ibIndex_length_append (f : WestFile) (n : Nat)
    (bs : List SimMetadata) :
    (ibIndex (append_ibstates f n bs)).length = (ibIndex f).length + 1 := by
  cases hf : f.ibstates <;>
    simp [append_ibstates, ibIndex, hf]

theorem tstates_append_empty (f : WestFile) (n : Nat) :
    (append_tstates f n []).tstates = some (
      { index := tsIndex f ++ [⟨n, 0, none⟩]
        subgroups := tsSubgroups f } : TSGroup) := by
  cases hf : f.tstates with
  | none => simp [append_tstates, tsIndex, tsSubgroups, hf]
  | some g =>
    simp only [append_tstates, tsIndex, tsSubgroups, hf]
    have h1 : (g.index ++ [(⟨0, 0, none⟩ : TStateIndexRow)]).length - 1
        = g.index.length := by simp
    rw [h1, set_append_last]

theorem tsIndex_length_append (f : WestFile) (n : Nat)
    (ts : List TargetState) :
    (tsIndex (append_tstates f n ts)).length = (tsIndex f).length + 1 := by
  cases ts <;> cases hf : f.tstates <;>
    simp [append_tstates, tsIndex, hf]

theorem binIndex_append (f : WestFile) (sim : SimMetadata) :
    binIndex (append_bin_mapper f sim) =
      binIndex f ++ [⟨sim.binner_hash, sim.binner_pickle.length⟩] := by
  cases hf : f.bin_topologies with
  | none => simp [append_bin_mapper, binIndex, hf]
  | some g =>
    simp only [append_bin_mapper, binIndex, hf]
    have h1 : (g.index ++ [(⟨List.replicate 64 0, 0⟩ : BinIndexRow)]).length
        - 1 = g.index.length := by simp
    rw [h1, set_append_last]

theorem binRows_length_append (f : WestFile) (sim : SimMetadata) :
    (binRows (append_bin_mapper f sim)).length = (binRows f).length + 1 := by
  cases hf : f.bin_topologies <;>
    simp [append_bin_mapper, binRows, hf]

theorem binWidth_append (f : WestFile) (sim : SimMetadata) :
    binWidth (append_bin_mapper f sim) =
      max (binWidth f) sim.binner_pickle.length := by
  cases hf : f.bin_topologies <;>
    simp [append_bin_mapper, binWidth, hf]

theorem binRows_append_new_row (f : WestFile) (sim : SimMetadata)
    (h : binWF f) :
    (binRows (append_bin_mapper f sim))[(binIndex f).length]? =
      some (sim.binner_pickle ++
        List.replicate
          (max (binWidth f) sim.binner_pickle.length
            - sim.binner_pickle.length) 0) := by
  unfold binWF at h
  cases hf : f.bin_topologies with
  | none =>
    simp [append_bin_mapper, binRows, binIndex, binWidth, hf, writeSlice,
      List.drop_replicate]
  | some g =>
    have hlen : g.index.length = g.rows.length := by
      simpa [binIndex, binRows, hf] using h
    simp only [binIndex, binRows, binWidth, hf] at h ⊢
    simp only [append_bin_mapper, hf]
    have h1 : (g.index ++ [(⟨List.replicate 64 0, 0⟩ : BinIndexRow)]).length
        - 1 = g.index.length := by simp
    rw [h1]
    have hA : g.index.length = (g.rows.map fun r : List Nat =>
        r ++ List.replicate (max g.width sim.binner_pickle.length
          - r.length) 0).length := by
      rw [List.length_map]; exact hlen
    rw [hA, getD_append_self, set_append_last, getElem?_append_self,
      writeSlice, List.drop_replicate]

/-! Claim theorems. -/

/-- C2: `append` fails with the empty-iteration error whenever the list of
ending replica records or the bin partition is empty, and in that case the
file — in particular its summary table — is left unchanged. -/
theorem append_empty_fails (cfg : DDWEMetadata) (f : WestFile)
    (next_iteration : List SimMetadata)
    (binned_sims : List (List SimMetadata))
    (basis_states : List SimMetadata) (target_states : List TargetState)
    (h : next_iteration = [] ∨ binned_sims = []) :
    (append cfg f next_iteration binned_sims basis_states target_states).err
        = some H5Error.emptyIteration ∧
    (append cfg f next_iteration binned_sims basis_states target_states).file
        = f := by
  rcases h with h | h
  · subst h; exact ⟨rfl, rfl⟩
  · subst h
    cases next_iteration with
    | nil => exact ⟨rfl, rfl⟩
    | cons s t => exact ⟨rfl, rfl⟩

/-- Witness for C2 at a concrete input. -/
theorem append_empty_fails_witness :
    (append cfg0 file0 [] [] [] []).err = some H5Error.emptyIteration ∧
    (append cfg0 file0 [] [] [] []).file = file0 :=
  append_empty_fails cfg0 file0 [] [] [] [] (Or.inl rfl)

/-- C4 counterexample: on a fresh store, appending an EMPTY basis-state
list still creates a child subgroup and sets the new index row's
back-reference to it (not null), refuting the claim for
`append_ibstates`. -/
theorem empty_bstates_counterexample :
    (ibSubgroups (append_ibstates file0 1 [])).length
        = (ibSubgroups file0).length + 1 ∧
    ((ibIndex (append_ibstates file0 1 [])).getLast?.map
        fun r => r.group_ref) = some (some 0) ∧
    ((ibIndex (append_ibstates file0 1 [])).getLast?.map
        fun r => r.group_ref) ≠ some none := by
  decide

/-- C4 (amended): appending an empty target-state list records an index
row with a state count of 0 and a null back-reference and creates no
subgroup; appending an empty basis-state list records a state count of 0
but still creates a child subgroup (with no detail datasets) and points
the back-reference at it. -/
theorem empty_state_lists (f : WestFile) (n : Nat) :
    (append_tstates f n []).tstates = some (
      { index := tsIndex f ++ [⟨n, 0, none⟩]
        subgroups := tsSubgroups f } : TSGroup) ∧
    (append_ibstates f n []).ibstates = some (
      { index := ibIndex f ++ [⟨n, 0, some (ibIndex f).length⟩]
        subgroups := ibSubgroups f
          ++ [((ibIndex f).length, ⟨none, none⟩)] } : IBGroup) :=
  ⟨tstates_append_empty f n, ibstates_append_empty f n⟩

/-- C5 counterexample: store creation over the path of the valid store
`file1` (a fresh store with one committed iteration) does not fail with
any error; it succeeds and replaces the file with a fresh store different
from the one that was there. -/
theorem init_counterexample :
    westpaH5FileInit (some file1) cfg0 = Except.ok (freshFile cfg0) ∧
    freshFile cfg0 ≠ file1 :=
  ⟨rfl, by decide⟩

/-- C5 (amended): store creation over any path — whether or not a valid
store already exists there — succeeds unconditionally (`h5py` truncating
write mode) and re-initializes the file with the header attributes, a
one-row summary table and an empty iterations namespace; no
already-exists error is ever raised. -/
theorem init_truncates (existing : Option WestFile) (config : DDWEMetadata) :
    ∃ g : WestFile, westpaH5FileInit existing config = Except.ok g ∧
      g.summary = [defaultSummaryRow] ∧ g.iterations = [] ∧
      g.ibstates = none ∧ g.tstates = none ∧ g.bin_topologies = none ∧
      g.west_file_format_version = config.west_file_format_version ∧
      g.west_iter_prec = config.west_iter_prec ∧
      g.west_version = config.west_version :=
  ⟨freshFile config, rfl, rfl, rfl, rfl, rfl, rfl, rfl, rfl, rfl⟩

/-- C6: after appending a blob to the bin-topology store, the payload
table's row width is at least the blob's length, the new index row records
the record's content hash and the blob's length, and reading back the new
payload row and trimming it to the recorded length reconstructs the
original serialized bytes. -/
theorem bin_mapper_roundtrip (f : WestFile) (sim : SimMetadata)
    (h : binWF f) :
    sim.binner_pickle.length ≤ binWidth (append_bin_mapper f sim) ∧
    (binIndex (append_bin_mapper f sim)).getLast?
        = some ⟨sim.binner_hash, sim.binner_pickle.length⟩ ∧
    ∃ row : List Nat,
      (binRows (append_bin_mapper f sim))[(binIndex f).length]? = some row ∧
      row.take sim.binner_pickle.length = sim.binner_pickle ∧
      row.length = binWidth (append_bin_mapper f sim) := by
  refine ⟨?_, ?_, ?_⟩
  · rw [binWidth_append]; exact le_max_right _ _
  · rw [binIndex_append]; exact List.getLast?_concat _
  · refine ⟨_, binRows_append_new_row f sim h, ?_, ?_⟩
    · exact List.take_left _ _
    · rw [binWidth_append]
      have hle := le_max_right (binWidth f) sim.binner_pickle.length
      rw [List.length_append, List.length_replicate]
      omega

/-- Witness for C6 at a concrete input. -/
theorem bin_mapper_roundtrip_witness :
    simA.binner_pickle.length ≤ binWidth (append_bin_mapper file0 simA) ∧
    (binIndex (append_bin_mapper file0 simA)).getLast?
        = some ⟨simA.binner_hash, simA.binner_pickle.length⟩ ∧
    ∃ row : List Nat,
      (binRows (append_bin_mapper file0 simA))[(binIndex file0).length]?
          = some row ∧
      row.take simA.binner_pickle.length = simA.binner_pickle ∧
      row.length = binWidth (append_bin_mapper file0 simA) :=
  bin_mapper_roundtrip file0 simA (by decide)

/-- C7: blob storage is not idempotent: each `append_bin_mapper` call
grows the index table and the payload table by exactly one row, and
appending the same snapshot twice stores it at two distinct row positions,
each recording the same hash and length (no deduplication). -/
theorem bin_mapper_not_idempotent (f : WestFile) (sim : SimMetadata) :
    (binIndex (append_bin_mapper f sim)).length = (binIndex f).length + 1 ∧
    (binRows (append_bin_mapper f sim)).length = (binRows f).length + 1 ∧
    (binIndex (append_bin_mapper (append_bin_mapper f sim) sim)).length
        = (binIndex f).length + 2 ∧
    (binRows (append_bin_mapper (append_bin_mapper f sim) sim)).length
        = (binRows f).length + 2 ∧
    (binIndex (append_bin_mapper (append_bin_mapper f sim) sim))[
        (binIndex f).length]?
          = some ⟨sim.binner_hash, sim.binner_pickle.length⟩ ∧
    (binIndex (append_bin_mapper (append_bin_mapper f sim) sim))[
        (binIndex f).length + 1]?
          = some ⟨sim.binner_hash, sim.binner_pickle.length⟩ := by
  have h1 := binIndex_append f sim
  have h2 := binIndex_append (append_bin_mapper f sim) sim
  refine ⟨?_, binRows_length_append f sim, ?_, ?_, ?_, ?_⟩
  · rw [h1]; simp
  · rw [h2, h1]; simp
  · rw [binRows_length_append, binRows_length_append]
  · rw [h2, h1]
    rw [List.getElem?_append_left
      (by simp : (binIndex f).length
        < (binIndex f ++ [(⟨sim.binner_hash, sim.binner_pickle.length⟩ :
          BinIndexRow)]).length)]
    exact getElem?_append_self _ _
  · rw [h2, h1]
    rw [show (binIndex f).length + 1
        = (binIndex f ++ [(⟨sim.binner_hash, sim.binner_pickle.length⟩ :
          BinIndexRow)]).length by simp]
    exact getElem?_append_self _ _

theorem summaryTableWrite_length (f : WestFile) (n : Nat) (row : SummaryRow)
    (f1 : WestFile) (h : summaryTableWrite f n row = Except.ok f1) :
    f.summary.length ≤ f1.summary.length ∧
    (1 ≤ n → n ≤ f1.summary.length) := by
  simp only [summaryTableWrite] at h
  by_cases hc : f.summary.length < n
  · rw [if_pos hc, if_neg (by omega : ¬((n : Int) - 1 < 0))] at h
    split_ifs at h with hb
    rw [Except.ok.injEq] at h
    subst h
    refine ⟨?_, fun h1 => ?_⟩ <;>
      simp only [List.length_set, List.length_append,
        List.length_replicate] <;>
      omega
  · rw [if_neg hc] at h
    by_cases hz : (n : Int) - 1 < 0
    · rw [if_pos hz] at h
      split_ifs at h with hb
      rw [Except.ok.injEq] at h
      subst h
      refine ⟨?_, fun h1 => ?_⟩ <;>
        simp only [List.length_set] <;>
        omega
    · rw [if_neg hz] at h
      split_ifs at h with hb
      rw [Except.ok.injEq] at h
      subst h
      refine ⟨?_, fun h1 => ?_⟩ <;>
        simp only [List.length_set] <;>
        omega

/-- C9: no write operation ever shrinks a growable table: the summary
write, basis-state write, target-state write and bin-topology write each
leave every table at least as long as before (in fact the index writers
grow their index by exactly one row), the payload matrix never narrows,
and after a successful summary write for iteration n ≥ 1 the summary table
has at least n rows, covering the highest index that references it. -/
theorem tables_monotone :
    (∀ (f : WestFile) (n : Nat) (next : List SimMetadata)
        (binned : List (List SimMetadata)) (f1 : WestFile),
      append_summary f n next binned = Except.ok f1 →
        f.summary.length ≤ f1.summary.length ∧
        (1 ≤ n → n ≤ f1.summary.length)) ∧
    (∀ (f : WestFile) (n : Nat) (bs : List SimMetadata),
      (ibIndex f).length ≤ (ibIndex (append_ibstates f n bs)).length) ∧
    (∀ (f : WestFile) (n : Nat) (ts : List TargetState),
      (tsIndex f).length ≤ (tsIndex (append_tstates f n ts)).length) ∧
    (∀ (f : WestFile) (sim : SimMetadata),
      (binIndex f).length ≤ (binIndex (append_bin_mapper f sim)).length ∧
      (binRows f).length ≤ (binRows (append_bin_mapper f sim)).length ∧
      binWidth f ≤ binWidth (append_bin_mapper f sim)) := by
  refine ⟨?_, ?_, ?_, ?_⟩
  · intro f n next binned f1 h
    cases next with
    | nil =>
      rw [show append_summary f n [] binned
          = Except.error H5Error.emptyIteration from rfl] at h
      exact Except.noConfusion h
    | cons s t =>
      cases binned with
      | nil =>
        rw [append_summary_binned_nil] at h
        exact Except.noConfusion h
      | cons c d =>
        rw [append_summary_cons] at h
        exact summaryTableWrite_length f n _ f1 h
  · intro f n bs
    rw [ibIndex_length_append]
    omega
  · intro f n ts
    rw [tsIndex_length_append]
    omega
  · intro f sim
    refine ⟨?_, ?_, ?_⟩
    · rw [binIndex_append]
      simp
    · rw [binRows_length_append]
      omega
    · rw [binWidth_append]
      exact le_max_left _ _

/-- Witness for C9 at concrete inputs. -/
theorem tables_monotone_witness :
    file0.summary.length ≤ sumFile1.summary.length ∧
    1 ≤ sumFile1.summary.length ∧
    (ibIndex file0).length
        ≤ (ibIndex (append_ibstates file0 1 [simA])).length ∧
    (tsIndex file0).length ≤ (tsIndex (append_tstates file0 1 [])).length ∧
    (binIndex file0).length
        ≤ (binIndex (append_bin_mapper file0 simA)).length := by
  have h := tables_monotone
  have h1 := h.1 file0 1 [simA, simB] [[simA, simB]] sumFile1 (by rfl)
  exact ⟨h1.1, h1.2 (by decide), h.2.1 file0 1 [simA], h.2.2.1 file0 1 [],
    (h.2.2.2 file0 simA).1⟩

/-- C3: within one `append` call, the basis-state write, target-state
write and bin-topology write are performed if and only if the iteration
number (taken from the first replica record) is nonzero — skipped only for
the very first iteration — while the summary write always occurs. -/
theorem gated_writes_iff (cfg : DDWEMetadata) (f : WestFile)
    (sim : SimMetadata) (rest : List SimMetadata)
    (binned : List (List SimMetadata)) (bs : List SimMetadata)
    (ts : List TargetState) (hs : 1 ≤ f.summary.length) (hb : binned ≠ []) :
    (append cfg f (sim :: rest) binned bs ts).err = none ∧
    WriteEvent.summaryWrite
        ∈ (append cfg f (sim :: rest) binned bs ts).trace ∧
    (WriteEvent.ibstatesWrite
        ∈ (append cfg f (sim :: rest) binned bs ts).trace
      ↔ sim.iteration_id ≠ 0) ∧
    (WriteEvent.tstatesWrite
        ∈ (append cfg f (sim :: rest) binned bs ts).trace
      ↔ sim.iteration_id ≠ 0) ∧
    (WriteEvent.binMapperWrite
        ∈ (append cfg f (sim :: rest) binned bs ts).trace
      ↔ sim.iteration_id ≠ 0) := by
  obtain ⟨c0, d, rfl⟩ := List.exists_cons_of_ne_nil hb
  have hok : ∃ f1, append_summary f sim.iteration_id (sim :: rest) (c0 :: d)
      = Except.ok f1 := by
    rw [append_summary_cons]
    by_cases hn : 1 ≤ sim.iteration_id
    · obtain ⟨tbl, he, h1, h2, h3⟩ :=
        summaryTableWrite_ok_pos f sim.iteration_id _ hn
      exact ⟨_, he⟩
    · have hn0 : sim.iteration_id = 0 := by omega
      rw [hn0, summaryTableWrite_zero f _ hs]
      exact ⟨_, rfl⟩
  obtain ⟨f1, hok⟩ := hok
  by_cases hn : sim.iteration_id = 0
  · rw [hn] at hok
    simp [append, hok, hn]
  · simp [append, hok, hn]

/-- Witness for C3 at a concrete input. -/
theorem gated_writes_iff_witness :
    (append cfg0 file0 [simA, simB] [[simA, simB]] [] []).err = none ∧
    WriteEvent.summaryWrite
        ∈ (append cfg0 file0 [simA, simB] [[simA, simB]] [] []).trace ∧
    (WriteEvent.ibstatesWrite
        ∈ (append cfg0 file0 [simA, simB] [[simA, simB]] [] []).trace
      ↔ simA.iteration_id ≠ 0) ∧
    (WriteEvent.tstatesWrite
        ∈ (append cfg0 file0 [simA, simB] [[simA, simB]] [] []).trace
      ↔ simA.iteration_id ≠ 0) ∧
    (WriteEvent.binMapperWrite
        ∈ (append cfg0 file0 [simA, simB] [[simA, simB]] [] []).trace
      ↔ simA.iteration_id ≠ 0) :=
  gated_writes_iff cfg0 file0 simA [simB] [[simA, simB]] [] []
    (by decide) (by decide)

/-- C8: within every successful `append` call, the per-iteration namespace
group — named with the zero-padded iteration number and stamped with the
iteration number — is created strictly after all other writes of the call:
it is the unique last event of the write trace, and the group is present
in the resulting file. -/
theorem iter_group_created_last (cfg : DDWEMetadata) (f : WestFile)
    (sim : SimMetadata) (rest : List SimMetadata)
    (binned : List (List SimMetadata)) (bs : List SimMetadata)
    (ts : List TargetState)
    (h : (append cfg f (sim :: rest) binned bs ts).err = none) :
    (append cfg f (sim :: rest) binned bs ts).trace.getLast?
        = some WriteEvent.iterGroupCreate ∧
    (append cfg f (sim :: rest) binned bs ts).trace.count
        WriteEvent.iterGroupCreate = 1 ∧
    (iterGroupName cfg.west_iter_prec sim.iteration_id, sim.iteration_id)
        ∈ (append cfg f (sim :: rest) binned bs ts).file.iterations := by
  cases hok : append_summary f sim.iteration_id (sim :: rest) binned with
  | error e =>
    rw [show append cfg f (sim :: rest) binned bs ts
        = ⟨some e, f, []⟩ from by simp [append, hok]] at h
    exact Option.noConfusion h
  | ok f1 =>
    have hfile : ∃ X : WestFile,
        (append cfg f (sim :: rest) binned bs ts).file
          = createIterGroup cfg.west_iter_prec X sim.iteration_id := by
      simp only [append, hok]
      exact ⟨_, rfl⟩
    obtain ⟨X, hX⟩ := hfile
    have hmem : (iterGroupName cfg.west_iter_prec sim.iteration_id,
        sim.iteration_id)
          ∈ (append cfg f (sim :: rest) binned bs ts).file.iterations := by
      rw [hX, createIterGroup_iterations]
      exact mem_setIterGroup X.iterations _ _
    by_cases hn : sim.iteration_id = 0
    · have hok0 := hok
      rw [hn] at hok0
      have htr : (append cfg f (sim :: rest) binned bs ts).trace
          = [WriteEvent.summaryWrite, WriteEvent.iterGroupCreate] := by
        simp [append, hok0, hn]
      exact ⟨by rw [htr]; decide, by rw [htr]; decide, hmem⟩
    · have htr : (append cfg f (sim :: rest) binned bs ts).trace
          = [WriteEvent.summaryWrite, WriteEvent.ibstatesWrite,
             WriteEvent.tstatesWrite, WriteEvent.binMapperWrite,
             WriteEvent.iterGroupCreate] := by
        simp [append, hok, hn]
      exact ⟨by rw [htr]; decide, by rw [htr]; decide, hmem⟩

/-- Witness for C8 at a concrete input. -/
theorem iter_group_created_last_witness :
    (append cfg0 file0 [simA, simB] [[simA, simB]] [] []).trace.getLast?
        = some WriteEvent.iterGroupCreate ∧
    (append cfg0 file0 [simA, simB] [[simA, simB]] [] []).trace.count
        WriteEvent.iterGroupCreate = 1 ∧
    (iterGroupName cfg0.west_iter_prec simA.iteration_id, simA.iteration_id)
        ∈ (append cfg0 file0 [simA, simB] [[simA, simB]] [] []).file.iterations :=
  iter_group_created_last cfg0 file0 simA [simB] [[simA, simB]] [] []
    (by decide)

/-- C1: for every iteration n ≥ 1 and every non-empty replica list with a
non-empty bin partition, `append` succeeds, the summary table afterwards
has length ≥ n, and row n-1 holds exactly the computed aggregate: the
particle count is the number of replica records, the norm is the sum of
their weights, the per-segment extremes are the minimum and maximum over
the individual replica weights, the per-bin extremes are the minimum and
maximum over the per-bin summed weights, cputime and walltime are zero,
and the binning hash is that of the first replica record. -/
theorem summary_row_correct (cfg : DDWEMetadata) (f : WestFile)
    (sim0 : SimMetadata) (t : List SimMetadata) (c0 : List SimMetadata)
    (d : List (List SimMetadata)) (bs : List SimMetadata)
    (ts : List TargetState) (hn : 1 ≤ sim0.iteration_id) :
    (append cfg f (sim0 :: t) (c0 :: d) bs ts).err = none ∧
    sim0.iteration_id
        ≤ (append cfg f (sim0 :: t) (c0 :: d) bs ts).file.summary.length ∧
    ∃ row : SummaryRow,
      (append cfg f (sim0 :: t) (c0 :: d) bs ts).file.summary[
          sim0.iteration_id - 1]? = some row ∧
      row.n_particles = (sim0 :: t).length ∧
      row.norm = (weights (sim0 :: t)).sum ∧
      row.min_seg_prob ∈ weights (sim0 :: t) ∧
      (∀ w ∈ weights (sim0 :: t), row.min_seg_prob ≤ w) ∧
      row.max_seg_prob ∈ weights (sim0 :: t) ∧
      (∀ w ∈ weights (sim0 :: t), w ≤ row.max_seg_prob) ∧
      row.min_bin_prob ∈ binSums (c0 :: d) ∧
      (∀ w ∈ binSums (c0 :: d), row.min_bin_prob ≤ w) ∧
      row.max_bin_prob ∈ binSums (c0 :: d) ∧
      (∀ w ∈ binSums (c0 :: d), w ≤ row.max_bin_prob) ∧
      row.cputime = 0 ∧ row.walltime = 0 ∧
      row.binhash = sim0.binner_hash := by
  obtain ⟨tbl, he, hlen1, hlen2, hget⟩ :=
    summaryTableWrite_ok_pos f sim0.iteration_id
      { n_particles := (sim0 :: t).length
        norm := (weights (sim0 :: t)).sum
        min_bin_prob := (binSums d).foldl min (weights c0).sum
        max_bin_prob := (binSums d).foldl max (weights c0).sum
        min_seg_prob := (weights t).foldl min sim0.weight
        max_seg_prob := (weights t).foldl max sim0.weight
        cputime := 0
        walltime := 0
        binhash := sim0.binner_hash } hn
  have hok : append_summary f sim0.iteration_id (sim0 :: t) (c0 :: d)
      = Except.ok { f with summary := tbl } := by
    rw [append_summary_cons]
    exact he
  have hn0 : sim0.iteration_id ≠ 0 := by omega
  have herr : (append cfg f (sim0 :: t) (c0 :: d) bs ts).err = none := by
    simp [append, hok]
  have hsum : (append cfg f (sim0 :: t) (c0 :: d) bs ts).file.summary
      = tbl := by
    simp [append, hok, hn0]
  have hws : weights (sim0 :: t) = sim0.weight :: weights t := rfl
  have hbs : binSums (c0 :: d) = (weights c0).sum :: binSums d := rfl
  refine ⟨herr, by rw [hsum]; exact hlen1, ?_⟩
  refine ⟨_, by rw [hsum]; exact hget, rfl, rfl, ?_, ?_, ?_, ?_, ?_, ?_,
    ?_, ?_, rfl, rfl, rfl⟩
  · rw [hws]
    exact foldl_min_mem (weights t) sim0.weight
  · intro w hw
    rw [hws] at hw
    exact foldl_min_le (weights t) sim0.weight w hw
  · rw [hws]
    exact foldl_max_mem (weights t) sim0.weight
  · intro w hw
    rw [hws] at hw
    exact foldl_max_le (weights t) sim0.weight w hw
  · rw [hbs]
    exact foldl_min_mem (binSums d) (weights c0).sum
  · intro w hw
    rw [hbs] at hw
    exact foldl_min_le (binSums d) (weights c0).sum w hw
  · rw [hbs]
    exact foldl_max_mem (binSums d) (weights c0).sum
  · intro w hw
    rw [hbs] at hw
    exact foldl_max_le (binSums d) (weights c0).sum w hw

/-- Witness for C1 at a concrete input. -/
theorem summary_row_correct_witness :
    (append cfg0 file0 [simA, simB] [[simA, simB]] [] []).err = none ∧
    simA.iteration_id
        ≤ (append cfg0 file0 [simA, simB] [[simA, simB]] [] []).file.summary.length ∧
    ∃ row : SummaryRow,
      (append cfg0 file0 [simA, simB] [[simA, simB]] [] []).file.summary[
          simA.iteration_id - 1]? = some row ∧
      row.n_particles = [simA, simB].length ∧
      row.norm = (weights [simA, simB]).sum ∧
      row.min_seg_prob ∈ weights [simA, simB] ∧
      (∀ w ∈ weights [simA, simB], row.min_seg_prob ≤ w) ∧
      row.max_seg_prob ∈ weights [simA, simB] ∧
      (∀ w ∈ weights [simA, simB], w ≤ row.max_seg_prob) ∧
      row.min_bin_prob ∈ binSums [[simA, simB]] ∧
      (∀ w ∈ binSums [[simA, simB]], row.min_bin_prob ≤ w) ∧
      row.max_bin_prob ∈ binSums [[simA, simB]] ∧
      (∀ w ∈ binSums [[simA, simB]], w ≤ row.max_bin_prob) ∧
      row.cputime = 0 ∧ row.walltime = 0 ∧
      row.binhash = simA.binner_hash :=
  summary_row_correct cfg0 file0 simA [simB] [simA, simB] [] [] []
    (by decide)

/-- C10: the iteration number used for all addressing in an `append` call
is taken solely from the first record: two calls whose inputs differ only
in the `iteration_id` fields of records other than the first produce
identical results (same error, same file contents, same trace). -/
theorem append_ignores_nonhead_iteration_ids (cfg : DDWEMetadata)
    (f : WestFile) (s : SimMetadata) (t1 t2 : List SimMetadata)
    (b1 b2 : List (List SimMetadata)) (bs : List SimMetadata)
    (ts : List TargetState)
    (ht : List.Forall₂ sameExceptIterId t1 t2)
    (hb : List.Forall₂ (List.Forall₂ sameExceptIterId) b1 b2) :
    append cfg f (s :: t1) b1 bs ts = append cfg f (s :: t2) b2 bs ts := by
  have hw : weights t1 = weights t2 := forall2_weights ht
  have hlen : t1.length = t2.length := ht.length_eq
  have hsum : append_summary f s.iteration_id (s :: t1) b1
      = append_summary f s.iteration_id (s :: t2) b2 := by
    cases hb with
    | nil =>
      rw [append_summary_binned_nil, append_summary_binned_nil]
    | cons h1 h2 =>
      rw [append_summary_cons, append_summary_cons]
      have hws : weights (s :: t1) = weights (s :: t2) := by
        have e1 : weights (s :: t1) = s.weight :: weights t1 := rfl
        have e2 : weights (s :: t2) = s.weight :: weights t2 := rfl
        rw [e1, e2, hw]
      rw [hws, forall2_binSums h2, forall2_weights h1,
        (by simp [hlen] : (s :: t1).length = (s :: t2).length), hw]
  simp only [append]
  rw [hsum]

/-- Witness for C10 at a concrete input: `simB2` differs from `simB` only
in `iteration_id`, and both appends produce the same result. -/
theorem append_ignores_nonhead_iteration_ids_witness :
    append cfg0 file0 [simA, simB] [[simA, simB]] [] []
      = append cfg0 file0 [simA, simB2] [[simA, simB2]] [] [] := by
  refine append_ignores_nonhead_iteration_ids cfg0 file0 simA [simB] [simB2]
    [[simA, simB]] [[simA, simB2]] [] [] ?_ ?_
  · exact List.Forall₂.cons (by exact ⟨rfl, rfl, rfl, rfl, rfl, rfl⟩)
      List.Forall₂.nil
  · exact List.Forall₂.cons
      (List.Forall₂.cons (by exact ⟨rfl, rfl, rfl, rfl, rfl, rfl⟩)
        (List.Forall₂.cons (by exact ⟨rfl, rfl, rfl, rfl, rfl, rfl⟩)
          List.Forall₂.nil))
      List.Forall₂.nil

end WestpaH5
